import Mathlib

/-!
Verification of the tubular-9000 feed reader.

A shallow embedding, in Lean 4, of the algorithmic core of the tubular-9000
browser client (`src/tubular-9000.js`) and of its relay server
(`src/unnamed/part_000`), together with theorems settling the specification
claims about the ordered posting collections, the template binder, the
renderer, the cache-backed fetch helper, the relay routing and the refresh
scheduling.

Each definition is a direct translation of the JavaScript it names; doc
comments cite the source lines and record the JavaScript semantic facts
(truthiness, `typeof null`, `Array.from` on async generators, array
iterators over mutating arrays) the translation relies on.
-/

namespace Tubular

/-! ## Ordered posting collections (src/tubular-9000.js lines 24-136)

Only the fields the collection algorithms inspect are modelled: the posting
identity `id` (the code rejects a posting whose id is falsy; the empty
string models the falsy case of the `!posting.id` test on line 40/76) and
the publish timestamp `published` (a JS `Date`, whose `<`/`>` comparisons
coerce to the underlying millisecond number, modelled as `Int`). -/

structure Posting where
  id : String
  published : Int
  deriving Repr, DecidableEq

/-- `Subscription.addPosting` (src lines 39-58): reject a falsy id; if an
entry with the same id exists, replace it in place (`this.postings[index] =
posting`); otherwise insert before the first entry whose publish time is
strictly below the incoming one (`findIndex(p => posting.published >
p.published)` followed by `splice(insertIndex, 0, posting)`), appending at
the end when there is none. -/
def subAddPosting (postings : List Posting) (posting : Posting) : List Posting :=
  if posting.id = "" then
    postings
  else
    match postings.findIdx? (fun p => p.id == posting.id) with
    | some index => postings.set index posting
    | none =>
      match postings.findIdx? (fun p => decide (posting.published > p.published)) with
      | some insertIndex => postings.insertIdx insertIndex posting
      | none => postings ++ [posting]

/-- An entry of the meta sequence: `MetaSubscription.addPosting` stores
records `{posting, elements}` (src lines 90, 103, 113), where `elements[i]`
is the node list returned by `render` for the i-th registered rendering
surface of `this.postingsElements`. Rendered nodes are modelled by numeric
identities drawn from a counter. -/
structure MetaEntry where
  posting : Posting
  elements : List (List Nat)
  deriving Repr, DecidableEq

/-- The state a `MetaSubscription` threads through `addPosting`: its entry
sequence, the number of registered rendering surfaces
(`this.postingsElements.length`, src line 67), and a fresh-node counter
modelling the identity of nodes produced by `render`. -/
structure MetaState where
  postings : List MetaEntry
  surfaces : Nat
  nextNode : Nat
  deriving Repr, DecidableEq

/-- One `render` call per registered surface (the `forEach(this.postingsElements,
...)` loops on src lines 83-88, 96-101 and 106-111): each call returns the
single bound root node of the posting template (bind, src line 322),
modelled as one fresh node id per surface. -/
def freshElements (surfaces start : Nat) : List (List Nat) :=
  (List.range surfaces).map (fun k => [start + k])

/-- `MetaSubscription.addPosting` (src lines 75-131): reject a falsy id;
deduplicate by the *nested* posting's id (`findIndex(p => p.posting.id ===
posting.id)`, line 80), replacing the entry in place on a hit; otherwise
insert before the first entry whose nested publish time is strictly
*greater* than the incoming one (`findIndex(p => posting.published <
p.posting.published)`, line 93 — note the comparison is flipped relative to
`Subscription.addPosting`), appending at the end when there is none. Every
branch renders the posting once per registered surface. -/
def metaAddPosting (st : MetaState) (posting : Posting) : MetaState :=
  if posting.id = "" then
    st
  else
    let elements := freshElements st.surfaces st.nextNode
    match st.postings.findIdx? (fun p => p.posting.id == posting.id) with
    | some index =>
      { st with
          postings := st.postings.set index ⟨posting, elements⟩
          nextNode := st.nextNode + st.surfaces }
    | none =>
      match st.postings.findIdx? (fun p => decide (posting.published < p.posting.published)) with
      | some insertIndex =>
        { st with
            postings := st.postings.insertIdx insertIndex ⟨posting, elements⟩
            nextNode := st.nextNode + st.surfaces }
      | none =>
        { st with
            postings := st.postings ++ [⟨posting, elements⟩]
            nextNode := st.nextNode + st.surfaces }

/-- The ordering invariant the specification asserts for a subscription's
own sequence: publish times are non-increasing from front to back. -/
def subOrdered (l : List Posting) : Prop :=
  l.Pairwise (fun a b => a.published ≥ b.published)

/-- The ordering the meta sequence actually maintains: nested publish
times are non-decreasing from front to back. -/
def metaOrderedAsc (l : List MetaEntry) : Prop :=
  l.Pairwise (fun a b => a.posting.published ≤ b.posting.published)

/-- The specification's claimed (descending) ordering, applied to the meta
sequence. -/
def metaOrderedDesc (l : List MetaEntry) : Prop :=
  l.Pairwise (fun a b => a.posting.published ≥ b.posting.published)

/-- No two entries of a subscription sequence share an id. -/
def subIdsNodup (l : List Posting) : Prop :=
  (l.map (·.id)).Nodup

/-- No two entries of the meta sequence share a (nested) id. -/
def metaIdsNodup (l : List MetaEntry) : Prop :=
  (l.map (·.posting.id)).Nodup

instance : DecidablePred subOrdered := fun l =>
  List.instDecidablePairwise (l := l)

instance : DecidablePred metaOrderedAsc := fun l =>
  List.instDecidablePairwise (l := l)

instance : DecidablePred metaOrderedDesc := fun l =>
  List.instDecidablePairwise (l := l)

instance : DecidablePred subIdsNodup := fun l => by
  unfold subIdsNodup; infer_instance

instance : DecidablePred metaIdsNodup := fun l => by
  unfold metaIdsNodup; infer_instance

/-! ### Generic lemmas about first-match insertion -/

/-- Inserting before the first entry satisfying `pred` (appending when none
does) splits the list at the `takeWhile`/`dropWhile` boundary of `!pred`:
the new element lands after every entry failing `pred` — in particular
after every entry tying with it, preserving arrival order among ties. -/
theorem findIdx_insert_split {α : Type} (pred : α → Bool) (x : α) (l : List α) :
    (match l.findIdx? pred with
     | some i => l.insertIdx i x
     | none => l ++ [x]) =
    l.takeWhile (fun a => !pred a) ++ x :: l.dropWhile (fun a => !pred a) := by
  induction l with
  | nil => simp [List.findIdx?]
  | cons a l ih =>
    rw [List.findIdx?_cons]
    by_cases h : pred a
    · simp [h, List.takeWhile_cons, List.dropWhile_cons]
    · have hb : pred a = false := by simpa using h
      rw [List.findIdx?_succ]
      cases hfi : l.findIdx? pred with
      | none =>
        rw [hfi] at ih
        have ih' : l ++ [x] =
            l.takeWhile (fun a => !pred a) ++ x :: l.dropWhile (fun a => !pred a) := ih
        simp only [hfi, Option.map_none', if_neg h]
        simp [List.takeWhile_cons, List.dropWhile_cons, hb, List.cons_append, ih']
      | some i =>
        rw [hfi] at ih
        have ih' : l.insertIdx i x =
            l.takeWhile (fun a => !pred a) ++ x :: l.dropWhile (fun a => !pred a) := ih
        simp only [hfi, Option.map_some', if_neg h]
        simp [List.insertIdx_succ_cons, List.takeWhile_cons, List.dropWhile_cons, hb, ih']

/-- Pairwise order is preserved by splicing `x` at the `takeWhile`/`dropWhile`
boundary, provided `x` is related forward to everything kept behind it and
backward to everything pushed after it. -/
theorem pairwise_insert_split {α : Type} (R : α → α → Prop) (pred : α → Bool) (x : α)
    (l : List α) (hl : l.Pairwise R)
    (h1 : ∀ a ∈ l.takeWhile (fun a => !pred a), R a x)
    (h2 : ∀ b ∈ l.dropWhile (fun a => !pred a), R x b) :
    (l.takeWhile (fun a => !pred a) ++ x :: l.dropWhile (fun a => !pred a)).Pairwise R := by
  have hsplit := List.takeWhile_append_dropWhile (p := fun a => !pred a) (l := l)
  have hl' : (l.takeWhile (fun a => !pred a) ++ l.dropWhile (fun a => !pred a)).Pairwise R := by
    rw [hsplit]; exact hl
  rw [List.pairwise_append] at hl'
  obtain ⟨ht, hd, hcross⟩ := hl'
  rw [List.pairwise_append]
  refine ⟨ht, ?_, ?_⟩
  · rw [List.pairwise_cons]
    exact ⟨h2, hd⟩
  · intro a ha b hb
    rcases List.mem_cons.mp hb with rfl | hb'
    · exact h1 a ha
    · exact hcross a ha b hb'

/-- In a `Pairwise R` list, every element surviving `dropWhile (!pred)`
satisfies `pred`, as long as `pred` is downward closed along `R`. -/
theorem pred_true_of_mem_dropWhile {α : Type} (R : α → α → Prop) (pred : α → Bool)
    (hdc : ∀ a b, pred a = true → R a b → pred b = true) :
    ∀ l : List α, l.Pairwise R → ∀ b ∈ l.dropWhile (fun a => !pred a), pred b = true := by
  intro l
  induction l with
  | nil => simp
  | cons a l ih =>
    intro hp b hb
    rw [List.pairwise_cons] at hp
    by_cases h : pred a
    · rw [List.dropWhile_cons] at hb
      simp only [h, Bool.not_true, if_neg] at hb
      rcases List.mem_cons.mp hb with rfl | hb'
      · exact h
      · exact hdc a b h (hp.1 b hb')
    · have hb' : pred a = false := by simpa using h
      rw [List.dropWhile_cons] at hb
      simp only [hb', Bool.not_false, if_pos] at hb
      exact ih hp.2 b hb

/-- First-match replacement: a successful `findIdx?` points at an element
satisfying the predicate. -/
theorem findIdx?_some_pred {α : Type} (pred : α → Bool) :
    ∀ (l : List α) (i : Nat), l.findIdx? pred = some i →
      ∃ hlt : i < l.length, pred (l.get ⟨i, hlt⟩) = true := by
  intro l
  induction l with
  | nil => intro i h; simp [List.findIdx?] at h
  | cons a l ih =>
    intro i h
    rw [List.findIdx?_cons] at h
    by_cases hp : pred a
    · rw [if_pos hp] at h
      obtain rfl : (0 : Nat) = i := Option.some.inj h
      exact ⟨Nat.succ_pos _, hp⟩
    · rw [if_neg hp, List.findIdx?_succ] at h
      cases hfi : l.findIdx? pred with
      | none => rw [hfi] at h; simp at h
      | some j =>
        rw [hfi] at h
        simp only [Option.map_some'] at h
        obtain rfl : j + 1 = i := Option.some.inj h
        obtain ⟨hlt, hpj⟩ := ih j hfi
        exact ⟨Nat.succ_lt_succ hlt, by simpa using hpj⟩

/-- Replacing an element by one agreeing under `f` leaves the `f`-image of
the list unchanged. -/
theorem map_set_of_eq {α β : Type} (f : α → β) (l : List α) (i : Nat) (x : α)
    (hi : i < l.length) (hf : f (l.get ⟨i, hi⟩) = f x) :
    (l.set i x).map f = l.map f := by
  apply List.ext_getElem
  · simp
  · intro n h₁ h₂
    rw [List.getElem_map, List.getElem_map, List.getElem_set]
    by_cases hni : i = n
    · subst hni
      simp only [if_pos rfl]
      exact hf.symm
    · rw [if_neg hni]

/-! ### Behaviour of the two `addPosting` variants -/

/-- On a fresh id, `Subscription.addPosting` splices the posting at the
first position whose publish time is strictly below the incoming one:
behind every entry at least as recent (ties included — arrival order). -/
theorem subAddPosting_fresh_eq (l : List Posting) (p : Posting)
    (hid : p.id ≠ "") (hfresh : ∀ q ∈ l, q.id ≠ p.id) :
    subAddPosting l p =
      l.takeWhile (fun q => !decide (p.published > q.published)) ++
        p :: l.dropWhile (fun q => !decide (p.published > q.published)) := by
  have hnone : l.findIdx? (fun q => q.id == p.id) = none := by
    rw [List.findIdx?_eq_none_iff]
    intro x hx
    simpa using hfresh x hx
  unfold subAddPosting
  rw [if_neg hid, hnone]
  exact findIdx_insert_split _ p l

/-- On a fresh id, `MetaSubscription.addPosting` splices the new entry at
the first position whose nested publish time is strictly above the
incoming one. -/
theorem metaAddPosting_fresh_eq (st : MetaState) (p : Posting)
    (hid : p.id ≠ "") (hfresh : ∀ q ∈ st.postings, q.posting.id ≠ p.id) :
    (metaAddPosting st p).postings =
      st.postings.takeWhile (fun q => !decide (p.published < q.posting.published)) ++
        (⟨p, freshElements st.surfaces st.nextNode⟩ : MetaEntry) ::
          st.postings.dropWhile (fun q => !decide (p.published < q.posting.published)) := by
  have hnone : st.postings.findIdx? (fun q => q.posting.id == p.id) = none := by
    rw [List.findIdx?_eq_none_iff]
    intro x hx
    simpa using hfresh x hx
  have hsplit := findIdx_insert_split (fun q => decide (p.published < q.posting.published))
      (⟨p, freshElements st.surfaces st.nextNode⟩ : MetaEntry) st.postings
  unfold metaAddPosting
  rw [if_neg hid, hnone]
  cases hfi : st.postings.findIdx? (fun q => decide (p.published < q.posting.published)) with
  | some i => rw [hfi] at hsplit; simpa using hsplit
  | none => rw [hfi] at hsplit; simpa using hsplit

/-- Fresh insertion preserves the subscription sequence's non-increasing
publish-time order. -/
theorem subAddPosting_fresh_sorted (l : List Posting) (p : Posting)
    (hid : p.id ≠ "") (hfresh : ∀ q ∈ l, q.id ≠ p.id) (hs : subOrdered l) :
    subOrdered (subAddPosting l p) := by
  unfold subOrdered at hs ⊢
  rw [subAddPosting_fresh_eq l p hid hfresh]
  apply pairwise_insert_split _ _ _ _ hs
  · intro a ha
    have h := List.mem_takeWhile_imp ha
    simp only [Bool.not_eq_true', decide_eq_false_iff_not, not_lt] at h
    exact h
  · intro b hb
    have h := pred_true_of_mem_dropWhile (fun a b : Posting => a.published ≥ b.published)
        (fun q => decide (p.published > q.published)) ?_ l hs b hb
    · simp only [decide_eq_true_eq] at h
      exact le_of_lt h
    · intro a b hpa hr
      simp only [decide_eq_true_eq] at hpa ⊢
      exact lt_of_le_of_lt hr hpa

/-- Fresh insertion preserves the meta sequence's non-decreasing
publish-time order. -/
theorem metaAddPosting_fresh_sorted (st : MetaState) (p : Posting)
    (hid : p.id ≠ "") (hfresh : ∀ q ∈ st.postings, q.posting.id ≠ p.id)
    (hs : metaOrderedAsc st.postings) :
    metaOrderedAsc (metaAddPosting st p).postings := by
  unfold metaOrderedAsc at hs ⊢
  rw [metaAddPosting_fresh_eq st p hid hfresh]
  apply pairwise_insert_split _ _ _ _ hs
  · intro a ha
    have h := List.mem_takeWhile_imp ha
    simp only [Bool.not_eq_true', decide_eq_false_iff_not, not_lt] at h
    exact h
  · intro b hb
    have h := pred_true_of_mem_dropWhile
        (fun a b : MetaEntry => a.posting.published ≤ b.posting.published)
        (fun q => decide (p.published < q.posting.published)) ?_ st.postings hs b hb
    · simp only [decide_eq_true_eq] at h
      exact le_of_lt h
    · intro a b hpa hr
      simp only [decide_eq_true_eq] at hpa ⊢
      exact lt_of_lt_of_le hpa hr

/-- `Subscription.addPosting` never introduces a duplicate id. -/
theorem subAddPosting_idsNodup (l : List Posting) (p : Posting) (hid : p.id ≠ "")
    (h : subIdsNodup l) : subIdsNodup (subAddPosting l p) := by
  unfold subIdsNodup at h ⊢
  unfold subAddPosting
  rw [if_neg hid]
  cases hidx : l.findIdx? (fun q => q.id == p.id) with
  | some i =>
    obtain ⟨hlt, hpi⟩ := findIdx?_some_pred _ l i hidx
    have heq : (l.set i p).map (·.id) = l.map (·.id) :=
      map_set_of_eq _ l i p hlt (by simpa using hpi)
    simpa [heq] using h
  | none =>
    have hfresh : ∀ q ∈ l, q.id ≠ p.id := by
      intro q hq
      have := List.findIdx?_eq_none_iff.mp hidx q hq
      simpa using this
    have hsplit := findIdx_insert_split (fun q => decide (p.published > q.published)) p l
    rw [hsplit]
    rw [List.map_append, List.map_cons, List.nodup_middle, List.nodup_cons]
    constructor
    · rw [← List.map_append, List.takeWhile_append_dropWhile]
      intro hmem
      obtain ⟨q, hq, hqid⟩ := List.mem_map.mp hmem
      exact hfresh q hq hqid
    · rw [← List.map_append, List.takeWhile_append_dropWhile]
      exact h

/-- `MetaSubscription.addPosting` never introduces a duplicate nested id. -/
theorem metaAddPosting_idsNodup (st : MetaState) (p : Posting) (hid : p.id ≠ "")
    (h : metaIdsNodup st.postings) : metaIdsNodup (metaAddPosting st p).postings := by
  unfold metaIdsNodup at h ⊢
  unfold metaAddPosting
  rw [if_neg hid]
  cases hidx : st.postings.findIdx? (fun q => q.posting.id == p.id) with
  | some i =>
    obtain ⟨hlt, hpi⟩ := findIdx?_some_pred _ st.postings i hidx
    have heq : (st.postings.set i ⟨p, freshElements st.surfaces st.nextNode⟩).map
          (·.posting.id) = st.postings.map (·.posting.id) :=
      map_set_of_eq _ st.postings i _ hlt (by simpa using hpi)
    simpa [heq] using h
  | none =>
    have hfresh : ∀ q ∈ st.postings, q.posting.id ≠ p.id := by
      intro q hq
      have := List.findIdx?_eq_none_iff.mp hidx q hq
      simpa using this
    have hsplit := findIdx_insert_split (fun q => decide (p.published < q.posting.published))
        (⟨p, freshElements st.surfaces st.nextNode⟩ : MetaEntry) st.postings
    cases hfi : st.postings.findIdx?
        (fun q => decide (p.published < q.posting.published)) with
    | some i =>
      rw [hfi] at hsplit
      simp only [hfi]
      rw [show (st.postings.insertIdx i (⟨p, freshElements st.surfaces st.nextNode⟩ : MetaEntry))
            = _ from hsplit]
      rw [List.map_append, List.map_cons, List.nodup_middle, List.nodup_cons]
      refine ⟨?_, ?_⟩
      · rw [← List.map_append, List.takeWhile_append_dropWhile]
        intro hmem
        obtain ⟨q, hq, hqid⟩ := List.mem_map.mp hmem
        exact hfresh q hq hqid
      · rw [← List.map_append, List.takeWhile_append_dropWhile]
        exact h
    | none =>
      rw [hfi] at hsplit
      simp only [hfi]
      rw [show (st.postings ++ [(⟨p, freshElements st.surfaces st.nextNode⟩ : MetaEntry)])
            = _ from hsplit]
      rw [List.map_append, List.map_cons, List.nodup_middle, List.nodup_cons]
      refine ⟨?_, ?_⟩
      · rw [← List.map_append, List.takeWhile_append_dropWhile]
        intro hmem
        obtain ⟨q, hq, hqid⟩ := List.mem_map.mp hmem
        exact hfresh q hq hqid
      · rw [← List.map_append, List.takeWhile_append_dropWhile]
        exact h

/-- An update-in-place keeps the subscription sequence's length and its id
sequence unchanged. -/
theorem subAddPosting_update (l : List Posting) (p : Posting) (hid : p.id ≠ "")
    (hdup : ∃ q ∈ l, q.id = p.id) :
    (subAddPosting l p).length = l.length ∧
    (subAddPosting l p).map (·.id) = l.map (·.id) := by
  unfold subAddPosting
  rw [if_neg hid]
  cases hidx : l.findIdx? (fun q => q.id == p.id) with
  | none =>
    exfalso
    obtain ⟨q, hq, hqid⟩ := hdup
    have := List.findIdx?_eq_none_iff.mp hidx q hq
    simp [hqid] at this
  | some i =>
    obtain ⟨hlt, hpi⟩ := findIdx?_some_pred _ l i hidx
    exact ⟨List.length_set l i p, map_set_of_eq _ l i p hlt (by simpa using hpi)⟩

/-! ### The specification scenario's postings -/

/-- Posting A of the specification scenario: id "a", publish time 100. -/
def pA : Posting := ⟨"a", 100⟩

/-- Posting B of the specification scenario: id "b", publish time 200. -/
def pB : Posting := ⟨"b", 200⟩

/-- Posting A re-added with publish time 300. -/
def pA300 : Posting := ⟨"a", 300⟩

/-- Posting C of the specification scenario: id "c", publish time 250. -/
def pC : Posting := ⟨"c", 250⟩

/-- An empty meta subscription with one registered rendering surface. -/
def metaEmpty : MetaState := ⟨[], 1, 0⟩

/-- C1 counterexample: the claimed ordering invariant fails on the code in
two independent ways. (i) `MetaSubscription.addPosting` keeps its sequence
in *ascending* publish-time order (its `findIndex` comparison on src line
93 is flipped relative to `Subscription.addPosting`, and new extremes are
pushed at the end of the array while being *prepended* to the rendering
surface): after adding A (time 100) then B (time 200) to an empty meta
subscription the sequence holds times [100, 200], which is not
non-increasing. (ii) A subscription's own sequence stops being
non-increasing after an update-in-place with a newer timestamp: A (100),
B (200), then A re-added at 300 leaves times [200, 300]. -/
theorem C1_counterexample :
    ¬ metaOrderedDesc (metaAddPosting (metaAddPosting metaEmpty pA) pB).postings ∧
    ¬ subOrdered (subAddPosting (subAddPosting (subAddPosting [] pA) pB) pA300) := by
  decide

/-- C1 (amended): for a posting with a non-empty id, (a) insertion of a
fresh id preserves the non-increasing publish-time order of a
subscription's own sequence, (b) lands behind every entry at least as
recent (ties in arrival order), (c) insertion of a fresh id preserves the
*non-decreasing* publish-time order of the meta sequence, (d)/(e) neither
variant ever introduces a duplicate id, and (f) an update-in-place
preserves the length and the id sequence (but, per the counterexample, not
the time ordering). -/
theorem C1_amended_invariants (l : List Posting) (st : MetaState) (p : Posting)
    (hid : p.id ≠ "") :
    ((∀ q ∈ l, q.id ≠ p.id) → subOrdered l → subOrdered (subAddPosting l p)) ∧
    ((∀ q ∈ l, q.id ≠ p.id) →
      subAddPosting l p =
        l.takeWhile (fun q => !decide (p.published > q.published)) ++
          p :: l.dropWhile (fun q => !decide (p.published > q.published))) ∧
    ((∀ q ∈ st.postings, q.posting.id ≠ p.id) → metaOrderedAsc st.postings →
      metaOrderedAsc (metaAddPosting st p).postings) ∧
    (subIdsNodup l → subIdsNodup (subAddPosting l p)) ∧
    (metaIdsNodup st.postings → metaIdsNodup (metaAddPosting st p).postings) ∧
    ((∃ q ∈ l, q.id = p.id) →
      (subAddPosting l p).length = l.length ∧
      (subAddPosting l p).map (·.id) = l.map (·.id)) :=
  ⟨fun hf hs => subAddPosting_fresh_sorted l p hid hf hs,
   fun hf => subAddPosting_fresh_eq l p hid hf,
   fun hf hs => metaAddPosting_fresh_sorted st p hid hf hs,
   fun h => subAddPosting_idsNodup l p hid h,
   fun h => metaAddPosting_idsNodup st p hid h,
   fun h => subAddPosting_update l p hid h⟩

/-- Witness for C1 (amended) at concrete inputs: inserting C (time 250)
into [B(200), A(100)] keeps the subscription sequence ordered and
duplicate-free, updating A in [B, A] keeps length and ids, and the meta
invariants hold for B inserted after A. -/
theorem C1_amended_invariants_witness :
    subOrdered (subAddPosting [pB, pA] pC) ∧
    subIdsNodup (subAddPosting [pB, pA] pC) ∧
    metaOrderedAsc (metaAddPosting (metaAddPosting metaEmpty pA) pB).postings ∧
    (subAddPosting [pB, pA] pA300).length = 2 := by
  have h1 := C1_amended_invariants [pB, pA] metaEmpty pC (by decide)
  have h2 := C1_amended_invariants [] (metaAddPosting metaEmpty pA) pB (by decide)
  have h3 := C1_amended_invariants [pB, pA] metaEmpty pA300 (by decide)
  refine ⟨h1.1 (by decide) (by decide), h1.2.2.2.1 (by decide),
    h2.2.2.1 (by decide) (by decide), ?_⟩
  have := (h3.2.2.2.2.2 (by decide)).1
  simpa using this

/-- C2 counterexample: running the scenario — A(100), B(200), A re-added at
300, then C(250) — the code inserts C at the *front* (C's time 250 exceeds
B's 200, the first entry scanned), producing [C, B, A], not the claimed
[B, C, A]. -/
theorem C2_counterexample :
    (subAddPosting (subAddPosting (subAddPosting (subAddPosting [] pA) pB) pA300) pC).map
        (·.id) ≠ ["b", "c", "a"] := by
  decide

/-- C2 (amended): the scenario step by step. The empty collection takes A;
B (newer) is inserted in front, giving [B, A]; re-adding A at time 300
replaces it in place — same position, same length, no re-sort — leaving
[B, A@300]; adding C (time 250) inserts it before B, the first entry with
an older publish time, yielding [C, B, A@300]. -/
theorem C2_amended_scenario :
    subAddPosting [] pA = [pA] ∧
    subAddPosting [pA] pB = [pB, pA] ∧
    subAddPosting [pB, pA] pA300 = [pB, pA300] ∧
    subAddPosting [pB, pA300] pC = [pC, pB, pA300] := by
  decide

/-! ## The template binder (src/tubular-9000.js lines 262-323)

`bind` walks a template node: a repeat directive (`data-foreach`) or a
condition directive (`data-if`) short-circuits; otherwise the node is
cloned, its `id` dropped, its attributes interpolated (`data-` prefixes
stripped), its text children interpolated in place, its element children
recursively bound — each recursive call un-parents the child (lines
266-268) and appends its results at the end of the clone (line 317) — and
a Binding Record `(element, template)` is pushed (line 321).

The compiled-expression engine (`evaluate`/`interpolate`, lines 228-254)
builds evaluators from arbitrary JavaScript text; it is modelled by oracle
functions passed as parameters. Directive evaluation only inspects whether
the result is an array (`Array.isArray`, line 280) or truthy (line 291),
which is what `BData` captures. -/

/-- A template/output node: an element with a tag, attributes and
children, or a text node. -/
inductive DNode where
  | elem (tag : String) (attrs : List (String × String)) (children : List DNode)
  | text (s : String)
  deriving Repr

/-- A JS value as the binder's directives see it: an array of nested
values, or an opaque non-array value carrying its string form. The empty
string models the falsy non-array values. -/
inductive BData where
  | scalar (s : String)
  | arr (items : List BData)
  deriving Repr

/-- JS truthiness of a directive result: arrays are truthy objects; of the
opaque values, only the falsy ones (modelled by the empty string) fail the
`data-if` test on line 291. -/
def truthy : BData → Bool
  | .scalar s => s ≠ ""
  | .arr _ => true

/-- `getAttribute`: the value of the first attribute with this name. -/
def getAttr (name : String) (attrs : List (String × String)) : Option String :=
  (attrs.find? (fun a => a.1 == name)).map (·.2)

/-- `hasAttribute`. -/
def hasAttr (name : String) (attrs : List (String × String)) : Bool :=
  (getAttr name attrs).isSome

/-- `removeAttribute`. -/
def removeAttr (name : String) (attrs : List (String × String)) : List (String × String) :=
  attrs.filter (fun a => a.1 != name)

/-- `setAttribute`: replace the value in place when the name exists,
append the attribute otherwise. -/
def setAttr (name value : String) (attrs : List (String × String)) : List (String × String) :=
  if hasAttr name attrs then
    attrs.map (fun a => if a.1 == name then (a.1, value) else a)
  else
    attrs ++ [(name, value)]

/-- A Binding Record as pushed onto `data.elements` (src line 321):
the rendered element together with the template it came from. -/
structure RecEvent where
  element : DNode
  template : DNode
  deriving Repr

/-- The attribute pass of `bind` (src lines 303-310): iterate a snapshot
of the attributes; interpolate each value; a `data-`-prefixed name
(`attr.name.substring(0, 5) === "data-"`) is installed under the stripped
name and the original removed, any other attribute is overwritten in
place. The snapshot is modelled by the attribute list's name/value pairs;
self-interfering combinations (an attribute named `data-<x>` alongside
`<x>`, whose live attribute node the loop would re-read after mutation)
are outside the claims considered here. -/
def bindAttrs (interpO : String → BData → String) (data : BData) :
    List (String × String) → List (String × String) → List (String × String)
  | current, [] => current
  | current, (name, value) :: rest =>
    let isDataAttribute := name.take 5 == "data-"
    let attrName := if isDataAttribute then name.drop 5 else name
    let current1 := setAttr attrName (interpO value data) current
    let current2 := if isDataAttribute then removeAttr name current1 else current1
    bindAttrs interpO data current2 rest

mutual

/-- `bind` (src lines 262-323), producing the returned node sequence and
the Binding Records pushed, in push order (children before parent, all on
the one `data` object threaded through the recursion).

The repeat branch (lines 277-288) evaluates the directive expression; a
non-array result throws. An array result reaches
`Array.from(flatMap(forEachArray, ...))` — but `flatMap` (lines 179-190)
is an `async function*`: the generator object it returns has no
synchronous iterator (only `Symbol.asyncIterator`) and no `length`
property, so `Array.from` treats it as an array-like of length 0 and
returns `[]` without ever pulling the generator. The per-element callback
— and with it the recursive `bind` of the directive-stripped clone — never
runs, and no Binding Record is appended, for empty and non-empty arrays
alike.

The condition branch (lines 290-295) returns `[]` on a falsy directive
value and leaves the `data-if` attribute in place otherwise (line 294 is
commented out in the source). -/
def bindNodes (evalO : String → BData → BData) (interpO : String → BData → String) :
    Nat → DNode → BData → Except String (List DNode × List RecEvent)
  | 0, _, _ => .error "recursion fuel exhausted"
  | _ + 1, .text _, _ => .error "bind is only invoked on element nodes"
  | fuel + 1, .elem tag attrs children, data =>
    if hasAttr "data-foreach" attrs then
      match evalO ((getAttr "data-foreach" attrs).getD "") data with
      | .arr _ => .ok ([], [])
      | .scalar _ => .error "Expression did not evaluate to an array."
    else if hasAttr "data-if" attrs &&
        !truthy (evalO ((getAttr "data-if" attrs).getD "") data) then
      .ok ([], [])
    else
      let attrs2 := bindAttrs interpO data (removeAttr "id" attrs) (removeAttr "id" attrs)
      match bindChildren evalO interpO fuel data children with
      | .error e => .error e
      | .ok (kept, appended, events) =>
        let el := DNode.elem tag attrs2 (kept ++ appended)
        .ok ([el], events ++ [⟨el, DNode.elem tag attrs children⟩])

/-- The child pass of `bind` (src lines 312-319) over a snapshot of the
children: a text child is interpolated in place (keeping its position); an
element child is recursively bound — the recursive call removes it from
its parent (lines 266-268) — and the resulting nodes are appended at the
end of the output element. Returns the surviving in-place children, the
appended bound nodes, and the Binding Records pushed by the recursion. -/
def bindChildren (evalO : String → BData → BData) (interpO : String → BData → String) :
    Nat → BData → List DNode → Except String (List DNode × List DNode × List RecEvent)
  | 0, _, _ => .error "recursion fuel exhausted"
  | _ + 1, _, [] => .ok ([], [], [])
  | fuel + 1, data, .text s :: rest =>
    match bindChildren evalO interpO fuel data rest with
    | .error e => .error e
    | .ok (kept, appended, events) => .ok (.text (interpO s data) :: kept, appended, events)
  | fuel + 1, data, .elem t a c :: rest =>
    match bindNodes evalO interpO fuel (.elem t a c) data with
    | .error e => .error e
    | .ok (bound, ev1) =>
      match bindChildren evalO interpO fuel data rest with
      | .error e => .error e
      | .ok (kept, appended, ev2) => .ok (kept, bound ++ appended, ev1 ++ ev2)

end

/-- A repeat-directive template: `<li data-foreach="items">${self.x}</li>`. -/
def foreachTemplate : DNode :=
  .elem "li" [("data-foreach", "items")] [.text "item text"]

/-- An expression oracle whose every evaluation yields the two-element
array ["x", "y"] — the repeat directive therefore evaluates to a non-empty
sequence. -/
def evalTwoItems : String → BData → BData :=
  fun _ _ => .arr [.scalar "x", .scalar "y"]

/-- An expression oracle evaluating every expression to the empty array. -/
def evalEmptyArr : String → BData → BData :=
  fun _ _ => .arr []

/-- An interpolation oracle returning the format string unchanged. -/
def interpConst : String → BData → String :=
  fun s _ => s

/-- An expression oracle evaluating every expression to a falsy value. -/
def evalFalsy : String → BData → BData :=
  fun _ _ => .scalar ""

/-- C3 (code bug): binding a repeat-directive template whose expression
evaluates to the NON-EMPTY array ["x", "y"] returns the empty node
sequence and appends no Binding Record — `Array.from` over the async
generator returned by `flatMap` yields `[]` without running the
per-element binds — instead of the claimed concatenation of one bound
clone per element. Over the empty array the result is likewise empty with
no records (the only part of the claim the code satisfies). The last
conjunct checks the result is not empty vacuously: the same node without
the directive binds to one element and one record. -/
theorem C3_foreach_returns_empty :
    bindNodes evalTwoItems interpConst 10 foreachTemplate (.scalar "d") = .ok ([], []) ∧
    bindNodes evalEmptyArr interpConst 10 foreachTemplate (.scalar "d") = .ok ([], []) ∧
    bindNodes evalTwoItems interpConst 10 (.elem "li" [] [.text "item text"]) (.scalar "x") =
      .ok ([.elem "li" [] [.text "item text"]],
           [⟨.elem "li" [] [.text "item text"], .elem "li" [] [.text "item text"]⟩]) := by
  refine ⟨rfl, rfl, rfl⟩

/-! ## The renderer (src/tubular-9000.js lines 331-373) -/

/-- The observable outcome of a `render` call with the `replacing` option:
the child list of the template's parent, the child list of the reference
node's parent, whether the warning on line 344 fired, and the value the
function returned (`none` models the bare `return` — undefined — on line
345). -/
structure RenderOut where
  tmplParent : List Nat
  refParent : List Nat
  warned : Bool
  returned : Option (List Nat)
  deriving Repr, DecidableEq

/-- `render` (src lines 331-358) for a call whose options carry
`usingTemplate` and `replacing` only — the shape used by
`MetaSubscription.addPosting` (lines 84-87) and `updateRendering` (line
370); the `atEndOf`/`atStartOf`/`after`/`before` branches test absent
options and are skipped. Nodes are modelled by numeric identities.

Before any placement, `bind` runs: if the template node (`tmplId`) is
parented, it is removed from its parent's children (lines 266-268) — a
document mutation that happens regardless of what the placement branch
later decides. `elems` is the node sequence the binder returned. The
replacing branch (lines 342-349) requires exactly one node: otherwise it
warns and returns undefined; with exactly one, `replaceChild` swaps it for
the reference node `refId` in the reference node's parent. -/
def renderReplacingM (tmplParent : List Nat) (tmplId : Nat)
    (refParent : List Nat) (refId : Nat) (elems : List Nat) : RenderOut :=
  let tmplParent1 := tmplParent.filter (fun c => c ≠ tmplId)
  if elems.length ≠ 1 then
    { tmplParent := tmplParent1, refParent := refParent, warned := true, returned := none }
  else
    { tmplParent := tmplParent1
      refParent := refParent.map (fun c => if c = refId then elems.headI else c)
      warned := false
      returned := some elems }

/-- C5 counterexample: a `render ... replacing` call whose binder produced
zero nodes (the fourth conjunct checks against the binder model that a
false condition directive does yield zero nodes and zero records) reports
the warning and leaves the reference node's parent untouched — but the
operation is not free of observable mutation: the parented template was
removed from its parent by the binder before the placement check. -/
theorem C5_counterexample :
    (renderReplacingM [7, 3] 7 [9] 9 []).warned = true ∧
    (renderReplacingM [7, 3] 7 [9] 9 []).refParent = [9] ∧
    (renderReplacingM [7, 3] 7 [9] 9 []).tmplParent ≠ [7, 3] ∧
    bindNodes evalFalsy interpConst 10
        (.elem "p" [("data-if", "cond")] []) (.scalar "d") = .ok ([], []) :=
  ⟨by decide, by decide, by decide, rfl⟩

/-! ## `updateRendering` (src/tubular-9000.js lines 364-373)

`updateRendering` runs `forEach(data.elements, ...)` while its callback
splices records out of `data.elements` and `render` → `bind` pushes fresh
records onto it (line 321). `for await (let item of array)` (forEach,
lines 166-172) draws items from the array's index-based iterator, which
re-reads `array[k]` at the *current* state on every step — so mutations
made during the pass shift which entries the iterator sees.

Binding Records are modelled by numeric identities; `next` is the supply
of ids for records pushed by re-renders, `processed` logs the records
handed to `render`, in order. Re-rendering a record re-binds its template,
which pushes one fresh record (the record of the template's own output
node; one per re-render models a leaf template). The `index === -1` guard
(line 368) is modelled by the not-found case of `indexOf`; it cannot fire,
because the item was just read from the array. -/
def updateLoop : Nat → Nat → List Nat → Nat → List Nat → List Nat × List Nat
  | 0, _, elements, _, processed => (elements, processed)
  | fuel + 1, k, elements, next, processed =>
    match elements[k]? with
    | none => (elements, processed)
    | some el =>
      let index := elements.indexOf el
      if index = elements.length then
        updateLoop fuel (k + 1) elements next processed
      else
        updateLoop fuel (k + 1) ((elements.eraseIdx index) ++ [next]) (next + 1)
          (processed ++ [el])

/-- C4 (code bug): a data object carrying two Binding Records [0, 1]
(e.g. any template with one element child pushes two records in a single
`bind`, child first, root second — src lines 317 and 321). The pass
processes record 0, splices it out, and its re-render pushes fresh record
2; the array iterator then reads index 1 of the mutated array [1, 2] —
record 2, the one just created — processes it, and stops. Record 1, present
when `updateRendering` was called, is never re-rendered, so its element
also cannot match a fresh `bind` of the template. With a single record the
pass behaves as claimed (last conjunct). -/
theorem C4_updateRendering_skips_record :
    updateLoop 10 0 [0, 1] 2 [] = ([1, 3], [0, 2]) ∧
    (1 : Nat) ∉ (updateLoop 10 0 [0, 1] 2 []).2 ∧
    updateLoop 10 0 [0] 1 [] = ([1], [0]) := by
  decide

/-! ## The cache-backed fetch helper (src/tubular-9000.js lines 397-424)

The persistent store (`localStorage`) maps string keys to string values;
`getItem` yields null for an absent key. -/

/-- The persistent store: a string-keyed map, modelled as an association
list with at most one entry per key. -/
abbrev Store : Type := List (String × String)

/-- `localStorage.getItem`: the stored value, or null (`none`) when the
key is absent. -/
def getItem : Store → String → Option String
  | [], _ => none
  | kv :: rest, name => if kv.1 = name then some kv.2 else getItem rest name

/-- `localStorage.setItem`: overwrite the key's value, or add the entry. -/
def setItem : Store → String → String → Store
  | [], name, value => [(name, value)]
  | kv :: rest, name, value =>
    if kv.1 = name then (kv.1, value) :: rest else kv :: setItem rest name value

/-- `localStore` (src lines 406-408). -/
def localStore (store : Store) (name value : String) : Store :=
  setItem store name value

/-- The outcome of a `localFetch` call: the returned value, the store
afterwards, and whether the fallback producer ran. -/
structure FetchOut where
  value : String
  store : Store
  producerInvoked : Bool

/-- `localFetch` (src lines 420-424):
`const result = localStorage.getItem(name) || await fallback();` —
`getItem` yields null for an absent key, but `||` also falls through on a
*present* falsy value, and the empty string is falsy, so a stored `""`
re-invokes the producer. The result is then unconditionally re-stored and
returned. The asynchronous producer is modelled by the value it resolves
to. -/
def localFetch (store : Store) (name : String) (producer : String) : FetchOut :=
  match getItem store name with
  | some v =>
    if v = "" then
      { value := producer, store := localStore store name producer, producerInvoked := true }
    else
      { value := v, store := localStore store name v, producerInvoked := false }
  | none =>
    { value := producer, store := localStore store name producer, producerInvoked := true }

/-- Re-storing the value a key already holds leaves the store unchanged. -/
theorem setItem_self (name v : String) :
    ∀ store : Store, getItem store name = some v → setItem store name v = store := by
  intro store
  induction store with
  | nil => intro h; simp [getItem] at h
  | cons kv rest ih =>
    intro h
    by_cases hk : kv.1 = name
    · unfold getItem at h
      rw [if_pos hk] at h
      obtain rfl : kv.2 = v := Option.some.inj h
      unfold setItem
      rw [if_pos hk]
    · unfold getItem at h
      rw [if_neg hk] at h
      unfold setItem
      rw [if_neg hk, ih h]

/-- Writing a key makes it readable. -/
theorem getItem_setItem (name v : String) :
    ∀ store : Store, getItem (setItem store name v) name = some v := by
  intro store
  induction store with
  | nil => simp [setItem, getItem]
  | cons kv rest ih =>
    by_cases hk : kv.1 = name
    · unfold setItem
      rw [if_pos hk]
      unfold getItem
      rw [if_pos hk]
    · unfold setItem
      rw [if_neg hk]
      unfold getItem
      rw [if_neg hk]
      exact ih

/-- C6 counterexample: a key present in the store with the (falsy) empty
string as its value: `localFetch` invokes the producer even though the key
is present, because `getItem(name) || fallback()` falls through on any
falsy stored value — refuting "returns the stored value without invoking
producer whenever the key is present". -/
theorem C6_counterexample :
    getItem [("k", "")] "k" = some "" ∧
    (localFetch [("k", "")] "k" "produced").producerInvoked = true ∧
    (localFetch [("k", "")] "k" "produced").value = "produced" := by
  refine ⟨rfl, rfl, rfl⟩

/-- C6 (amended): `localFetch` returns the stored value without invoking
the producer whenever the key is present *with a non-empty (truthy)
value*, leaving the store unchanged; when the key is absent — or present
with the falsy empty-string value — it invokes the producer, stores the
produced value under the key, and returns it. -/
theorem C6_localFetch_cases (store : Store) (name producer : String) :
    (∀ v, getItem store name = some v → v ≠ "" →
      localFetch store name producer = ⟨v, store, false⟩) ∧
    (getItem store name = none →
      (localFetch store name producer).value = producer ∧
      (localFetch store name producer).producerInvoked = true ∧
      getItem (localFetch store name producer).store name = some producer) ∧
    (getItem store name = some "" →
      (localFetch store name producer).value = producer ∧
      (localFetch store name producer).producerInvoked = true ∧
      getItem (localFetch store name producer).store name = some producer) := by
  refine ⟨?_, ?_, ?_⟩
  · intro v hv hne
    unfold localFetch
    rw [hv]
    simp only [if_neg hne]
    unfold localStore
    rw [setItem_self name v store hv]
  · intro h
    unfold localFetch
    rw [h]
    exact ⟨rfl, rfl, getItem_setItem name producer store⟩
  · intro h
    unfold localFetch
    rw [h]
    simp only [if_pos rfl]
    exact ⟨rfl, rfl, getItem_setItem name producer store⟩

/-- Witness for C6 (amended) at concrete inputs: a truthy hit on
[("k", "v")] returns "v" without the producer and leaves the store as it
was; a miss on the empty store produces, stores and returns "p". -/
theorem C6_localFetch_cases_witness :
    localFetch [("k", "v")] "k" "p" = ⟨"v", [("k", "v")], false⟩ ∧
    (localFetch [] "k" "p").value = "p" ∧
    (localFetch [] "k" "p").producerInvoked = true ∧
    getItem (localFetch [] "k" "p").store "k" = some "p" := by
  have h := C6_localFetch_cases [("k", "v")] "k" "p"
  have h2 := C6_localFetch_cases [] "k" "p"
  have hhit := h.1 "v" rfl (by decide)
  have hmiss := h2.2.1 rfl
  exact ⟨hhit, hmiss.1, hmiss.2.1, hmiss.2.2⟩

/-- C5 (amended): with the `replacing` option, when the binder produced a
number of nodes different from one, the warning is reported, the reference
node's parent is untouched and `render` returns no node list (undefined) —
but side effects the binder performed before the placement check persist,
in particular a parented template has been removed from its parent; when
the binder produced exactly one node, that node replaces the reference
node in its parent and no warning fires. -/
theorem C5_render_replacing (tmplParent refParent : List Nat) (tmplId refId : Nat)
    (elems : List Nat) :
    (elems.length ≠ 1 →
      (renderReplacingM tmplParent tmplId refParent refId elems).warned = true ∧
      (renderReplacingM tmplParent tmplId refParent refId elems).refParent = refParent ∧
      (renderReplacingM tmplParent tmplId refParent refId elems).returned = none) ∧
    (∀ e, elems = [e] →
      (renderReplacingM tmplParent tmplId refParent refId elems).warned = false ∧
      (renderReplacingM tmplParent tmplId refParent refId elems).refParent =
        refParent.map (fun c => if c = refId then e else c) ∧
      (refId ∈ refParent →
        e ∈ (renderReplacingM tmplParent tmplId refParent refId elems).refParent) ∧
      (renderReplacingM tmplParent tmplId refParent refId elems).returned = some [e]) ∧
    (renderReplacingM tmplParent tmplId refParent refId elems).tmplParent =
      tmplParent.filter (fun c => c ≠ tmplId) := by
  refine ⟨?_, ?_, ?_⟩
  · intro h
    unfold renderReplacingM
    rw [if_pos h]
    exact ⟨rfl, rfl, rfl⟩
  · intro e he
    subst he
    unfold renderReplacingM
    have h1 : ¬ (([e] : List Nat).length ≠ 1) := by simp
    rw [if_neg h1]
    refine ⟨rfl, rfl, ?_, rfl⟩
    · intro hmem
      exact List.mem_map.mpr ⟨refId, hmem, by simp [List.headI]⟩
  · unfold renderReplacingM
    by_cases h : elems.length ≠ 1
    · rw [if_pos h]
    · rw [if_neg h]

/-- Witness for C5 (amended): a zero-node bind result warns and leaves the
reference parent [9, 2] alone; a one-node result [4] replaces node 9,
giving [4, 2], with no warning. -/
theorem C5_render_replacing_witness :
    (renderReplacingM [5] 5 [9, 2] 9 []).warned = true ∧
    (renderReplacingM [5] 5 [9, 2] 9 []).refParent = [9, 2] ∧
    (renderReplacingM [5] 5 [9, 2] 9 [4]).refParent = [4, 2] ∧
    (renderReplacingM [5] 5 [9, 2] 9 [4]).warned = false := by
  have h0 := C5_render_replacing [5] [9, 2] 5 9 []
  have h1 := C5_render_replacing [5] [9, 2] 5 9 [4]
  have ha := h0.1 (by decide)
  have hb := h1.2.1 4 rfl
  refine ⟨ha.1, ha.2.1, ?_, hb.1⟩
  rw [hb.2.1]
  decide

/-! ## `bind`'s data normalization (src/tubular-9000.js lines 269-275)

```
if (typeof(data) === "object") { data.self = data; }
else { data = {self: data}; }
```

modelled over an explicit object heap, so that the circular `self`
reference and the mutation of the caller's object are expressible. -/

/-- A JS value: null, undefined, a primitive, or a reference into the
object heap. -/
inductive JsValue where
  | vnull
  | vundef
  | vbool (b : Bool)
  | vnum (n : Int)
  | vstr (s : String)
  | vref (r : Nat)
  deriving Repr, DecidableEq

/-- The object heap: index `r` holds the field list of the object
`vref r`. -/
abbrev JsHeap : Type := List (List (String × JsValue))

/-- `typeof` (function values are not needed here). Crucially,
`typeof null === "object"`. -/
def jsTypeof : JsValue → String
  | .vnull => "object"
  | .vundef => "undefined"
  | .vbool _ => "boolean"
  | .vnum _ => "number"
  | .vstr _ => "string"
  | .vref _ => "object"

/-- The failure a JS property assignment can raise. -/
inductive JsError where
  | typeError
  deriving Repr, DecidableEq

/-- Write a field in an object's field list: overwrite the existing field
or append a new one. -/
def setFieldList (fields : List (String × JsValue)) (name : String) (v : JsValue) :
    List (String × JsValue) :=
  if (fields.find? (fun f => f.1 == name)).isSome then
    fields.map (fun f => if f.1 == name then (f.1, v) else f)
  else
    fields ++ [(name, v)]

/-- A property assignment `target[name] = v`: on an object reference it
mutates the heap entry; on null (or undefined) it throws a TypeError; on
any other primitive the assignment is silently ignored (the script runs in
sloppy mode). A dangling reference cannot arise in JS and is mapped to an
error. -/
def setField (heap : JsHeap) (target : JsValue) (name : String) (v : JsValue) :
    Except JsError JsHeap :=
  match target with
  | .vref r =>
    match heap[r]? with
    | some fields => .ok (heap.set r (setFieldList fields name v))
    | none => .error .typeError
  | .vnull => .error .typeError
  | .vundef => .error .typeError
  | _ => .ok heap

/-- The data-normalization step of `bind` (src lines 269-275): since
`typeof null` is "object", null reaches `data.self = data` and throws a
TypeError rather than taking the scalar-wrapping branch; a non-object
value is re-bound to a freshly allocated self-wrapper object
without touching existing objects; a non-null object is mutated in place
by installing the `self` field. Returns the heap after the step together
with the (possibly re-bound) `data`. -/
def bindDataStep (heap : JsHeap) (data : JsValue) : Except JsError (JsHeap × JsValue) :=
  if jsTypeof data = "object" then
    match setField heap data "self" data with
    | .ok heap1 => .ok (heap1, data)
    | .error e => .error e
  else
    .ok (heap ++ [[("self", data)]], .vref heap.length)

/-- C10: `bind` with null data takes the object branch of the `typeof`
test and fails with a TypeError at the self-assignment (first conjunct),
so non-null data is a precondition; every non-object value is re-bound to
a fresh `self`-wrapper allocated past the end of the heap, leaving every
existing object untouched (second and third conjuncts); every non-null
object is mutated in place by installing the `self` field pointing back at
the object itself (fourth conjunct). -/
theorem C10_bind_data_normalization :
    (∀ heap : JsHeap, bindDataStep heap .vnull = .error .typeError) ∧
    (∀ (heap : JsHeap) (v : JsValue), jsTypeof v ≠ "object" →
      bindDataStep heap v = .ok (heap ++ [[("self", v)]], .vref heap.length)) ∧
    (∀ (heap : JsHeap) (v : JsValue) (i : Nat), i < heap.length →
      (heap ++ [[("self", v)]])[i]? = heap[i]?) ∧
    (∀ (heap : JsHeap) (r : Nat) (fields : List (String × JsValue)),
      heap[r]? = some fields →
      bindDataStep heap (.vref r) =
        .ok (heap.set r (setFieldList fields "self" (.vref r)), .vref r)) := by
  refine ⟨?_, ?_, ?_, ?_⟩
  · intro heap
    rfl
  · intro heap v h
    unfold bindDataStep
    rw [if_neg h]
  · intro heap v i hi
    rw [List.getElem?_append, if_pos hi]
  · intro heap r fields hr
    have hobj : jsTypeof (JsValue.vref r) = "object" := rfl
    unfold bindDataStep
    rw [if_pos hobj]
    simp [setField, hr]

/-- Witness for C10 at concrete inputs: the number 5 is wrapped into a
fresh object on the empty heap; the object `vref 0` on a one-object heap
gains a `self` field pointing back at itself; null errors. -/
theorem C10_bind_data_normalization_witness :
    bindDataStep [] .vnull = .error .typeError ∧
    bindDataStep [] (.vnum 5) = .ok ([[("self", .vnum 5)]], .vref 0) ∧
    bindDataStep [[("x", .vnum 1)]] (.vref 0) =
      .ok ([[("x", .vnum 1), ("self", .vref 0)]], .vref 0) := by
  have h := C10_bind_data_normalization
  refine ⟨h.1 [], ?_, ?_⟩
  · have := h.2.1 [] (.vnum 5) (by decide)
    simpa using this
  · have := h.2.2.2 [[("x", .vnum 1)]] 0 [("x", .vnum 1)] rfl
    rw [this]
    rfl

/-! ## The relay server's GET routing (src/unnamed/part_000 lines 26-96)

The request handler tries, in order: the home page (`req.url === "/"`),
the static-file branch (an extension after the last dot, a known mime
type, and a `/^[\w\d\-]+$/` file name), the subscriptions document
(`req.url === "/subscriptions"`), and the feed proxy (`req.url.substr(0,
6) === "/feed/"` with a second slash delimiting an allowlisted host);
anything else is 404. URLs are modelled as character lists with the
JavaScript string primitives the handler uses. -/

/-- `indexOf(c, start)`, scanning positions `≥ start` (helper carrying the
absolute position). -/
def idxOfAux (c : Char) : List Char → Nat → Option Nat
  | [], _ => none
  | x :: xs, i => if x = c then some i else idxOfAux c xs (i + 1)

/-- `String.prototype.indexOf(c, start)`: the least index `≥ start`
holding `c`, if any. -/
def idxOfFrom (c : Char) (l : List Char) (start : Nat) : Option Nat :=
  idxOfAux c (l.drop start) start

/-- `String.prototype.lastIndexOf(c)`: the greatest index holding `c`, if
any. -/
def lastIdxOf (c : Char) : List Char → Option Nat
  | [] => none
  | x :: xs =>
    match lastIdxOf c xs with
    | some i => some (i + 1)
    | none => if x = c then some 0 else none

/-- `String.prototype.substr(start, len)`. -/
def strSub (l : List Char) (start len : Nat) : List Char :=
  (l.drop start).take len

/-- One character of the `/^[\w\d\-]+$/` class: an ASCII letter, a digit,
an underscore or a hyphen. -/
def isWordChar (c : Char) : Bool :=
  c.isAlpha || c.isDigit || c = '_' || c = '-'

/-- The `fileName && /^[\w\d\-]+$/.test(fileName)` guard (line 46):
non-empty and made of word characters only. -/
def fileNameOk (l : List Char) : Bool :=
  !l.isEmpty && l.all isWordChar

/-- `settings.staticExtensions` (lines 14-20). -/
def staticExtensions : List (String × String) :=
  [("html", "text/html"), ("css", "text/css"), ("js", "text/javascript"),
   ("png", "image/png"), ("ico", "image/vnd.microsoft.icon")]

/-- `settings.allowedFeedHosts` (line 22). -/
def allowedFeedHosts : List String :=
  ["www.youtube.com"]

/-- The possible outcomes of a GET request to the relay. -/
inductive ServerResponse where
  | homePage
  | staticFile (fileName ext mime : String)
  | opmlSubscriptions
  | proxied (target : String)
  | notFound
  deriving Repr, DecidableEq

/-- The static-file branch (lines 38-54): take the extension after the
last dot, require it non-empty with a known mime type, and serve
`<fileName>.<ext>` when the file name (everything between the leading
slash and the dot) matches `/^[\w\d\-]+$/`; `none` models falling through
to the next branch. -/
def staticRoute (u : List Char) : Option ServerResponse :=
  match lastIdxOf '.' u with
  | none => none
  | some extPos =>
    let ext := u.drop (extPos + 1)
    if ext.isEmpty then none
    else
      match staticExtensions.find? (fun kv => kv.1 == String.mk ext) with
      | none => none
      | some kv =>
        let fileName := strSub u 1 (extPos - 1)
        if fileNameOk fileName then
          some (.staticFile (String.mk fileName) (String.mk ext) kv.2)
        else none

/-- The GET routing of the relay server (src/unnamed/part_000 lines
30-88), in source order: home page, static files, the subscriptions
document, the feed proxy (`https.get` of `https://` + everything after
`/feed/`, only when the segment between `/feed/` and the next slash is an
allowlisted host), and otherwise the 404 response. -/
def handleGet (url : String) : ServerResponse :=
  if url.toList = "/".toList then .homePage
  else
    match staticRoute url.toList with
    | some r => r
    | none =>
      if url.toList = "/subscriptions".toList then .opmlSubscriptions
      else if strSub url.toList 0 6 = "/feed/".toList then
        match idxOfFrom '/' url.toList 6 with
        | some hostIndex =>
          if allowedFeedHosts.contains (String.mk (strSub url.toList 6 (hostIndex - 6))) then
            .proxied ("https://" ++ String.mk (url.toList.drop 6))
          else .notFound
        | none => .notFound
      else .notFound

/-- A successful `lastIdxOf` points at the character sought. -/
theorem lastIdxOf_getElem (c : Char) :
    ∀ (l : List Char) (i : Nat), lastIdxOf c l = some i → l[i]? = some c := by
  intro l
  induction l with
  | nil => intro i h; simp [lastIdxOf] at h
  | cons x xs ih =>
    intro i h
    unfold lastIdxOf at h
    cases hfi : lastIdxOf c xs with
    | some j =>
      rw [hfi] at h
      obtain rfl : j + 1 = i := Option.some.inj h
      simpa using ih j hfi
    | none =>
      rw [hfi] at h
      by_cases hx : x = c
      · rw [if_pos hx] at h
        obtain rfl : (0 : Nat) = i := Option.some.inj h
        simp [hx]
      · rw [if_neg hx] at h
        exact absurd h (by simp)

/-- The static-file branch never serves a `/feed/`-prefixed URL: any dot
lies at index ≥ 6 (the prefix has none), so the candidate file name
contains the prefix's second slash and fails the `/^[\w\d\-]+$/` test. -/
theorem staticRoute_feed_none (u : List Char)
    (h : strSub u 0 6 = "/feed/".toList) : staticRoute u = none := by
  have htake : u.take 6 = "/feed/".toList := by
    simpa [strSub, List.drop_zero] using h
  unfold staticRoute
  cases hlast : lastIdxOf '.' u with
  | none => rfl
  | some extPos =>
    have hdot := lastIdxOf_getElem '.' u extPos hlast
    have h5 : u[5]? = some '/' := by
      have hc := congrArg (fun l => l[5]?) htake
      simp only [List.getElem?_take] at hc
      simpa using hc
    have hge : 6 ≤ extPos := by
      by_contra hlt
      push_neg at hlt
      have heq : u[extPos]? = ("/feed/".toList)[extPos]? := by
        have hc := congrArg (fun l => l[extPos]?) htake
        simp only [List.getElem?_take, if_pos hlt] at hc
        exact hc
      rw [hdot] at heq
      interval_cases extPos <;> exact absurd heq (by decide)
    have h4 : (strSub u 1 (extPos - 1))[4]? = some '/' := by
      have h45 : 4 < extPos - 1 := by omega
      unfold strSub
      rw [List.getElem?_take, if_pos h45, List.getElem?_drop]
      simpa using h5
    have hmem : '/' ∈ strSub u 1 (extPos - 1) := by
      rcases List.getElem?_eq_some.mp h4 with ⟨hlt, heq⟩
      exact heq ▸ List.getElem_mem hlt
    have hok : fileNameOk (strSub u 1 (extPos - 1)) = false := by
      unfold fileNameOk
      have hall : (strSub u 1 (extPos - 1)).all isWordChar = false :=
        List.all_eq_false.mpr ⟨'/', hmem, by decide⟩
      simp [hall]
    by_cases hempty : (u.drop (extPos + 1)).isEmpty
    · simp [hempty]
    · cases hfind : staticExtensions.find?
          (fun kv => kv.1 == String.mk (u.drop (extPos + 1))) with
      | none => simp [hempty, hfind]
      | some kv => simp [hempty, hfind, hok]

/-- C7 counterexample: the claim's "every other shape yields the
not-found response" fails — the handler serves the home page for `/` and
simple-named static files with known extensions, such as `/tubular.css`,
neither of which is of the form `/feed/<host>/<path>`. -/
theorem C7_counterexample :
    handleGet "/" = .homePage ∧
    handleGet "/tubular.css" = .staticFile "tubular" "css" "text/css" ∧
    handleGet "/tubular.css" ≠ .notFound := by
  refine ⟨rfl, rfl, by decide⟩

/-- C7 (amended): restricted to `/feed/`-prefixed requests the claim holds
— the request is proxied to `https://` + everything after `/feed/` if and
only if a second slash delimits the host and the host (the segment between
`/feed/` and that slash) is on the allowlist; with no trailing slash after
the host, or a host off the allowlist, the response is not-found. Requests
of other shapes are served by the earlier branches (home page, static
files, subscriptions document) rather than uniformly yielding not-found. -/
theorem C7_feed_routing (url : String)
    (h : strSub url.toList 0 6 = "/feed/".toList) :
    handleGet url =
      match idxOfFrom '/' url.toList 6 with
      | none => .notFound
      | some hostIndex =>
        if allowedFeedHosts.contains (String.mk (strSub url.toList 6 (hostIndex - 6))) then
          .proxied ("https://" ++ String.mk (url.toList.drop 6))
        else .notFound := by
  have htake : url.toList.take 6 = "/feed/".toList := by
    simpa [strSub, List.drop_zero] using h
  have hlen : 6 ≤ url.toList.length := by
    have hc := congrArg List.length htake
    rw [List.length_take] at hc
    have h6 : ("/feed/".toList).length = 6 := by decide
    rw [h6] at hc
    have hmin := Nat.min_le_right 6 url.toList.length
    rw [hc] at hmin
    exact hmin
  have hne1 : url.toList ≠ "/".toList := by
    intro hu
    rw [hu] at hlen
    simp at hlen
  have hne2 : url.toList ≠ "/subscriptions".toList := by
    intro hu
    have h1 : url.toList[1]? = some 'f' := by
      have hc := congrArg (fun l => l[1]?) htake
      simp only [List.getElem?_take] at hc
      simpa using hc
    rw [hu] at h1
    exact absurd h1 (by decide)
  unfold handleGet
  rw [if_neg hne1, staticRoute_feed_none url.toList h]
  show (if url.toList = "/subscriptions".toList then ServerResponse.opmlSubscriptions
    else if strSub url.toList 0 6 = "/feed/".toList then
      match idxOfFrom '/' url.toList 6 with
      | some hostIndex =>
        if allowedFeedHosts.contains (String.mk (strSub url.toList 6 (hostIndex - 6))) then
          ServerResponse.proxied ("https://" ++ String.mk (url.toList.drop 6))
        else ServerResponse.notFound
      | none => ServerResponse.notFound
    else ServerResponse.notFound) = _
  rw [if_neg hne2, if_pos h]
  cases hidx : idxOfFrom '/' url.toList 6 with
  | none => rfl
  | some hostIndex => rfl

/-- Witness for C7 (amended) at the specification's concrete requests:
the allowlisted `/feed/www.youtube.com/watch?v=1` is proxied, the
non-allowlisted `/feed/evil.example/x` is not found, and a feed path with
no slash after the host is not found. -/
theorem C7_feed_routing_witness :
    handleGet "/feed/www.youtube.com/watch?v=1" =
      .proxied "https://www.youtube.com/watch?v=1" ∧
    handleGet "/feed/evil.example/x" = .notFound ∧
    handleGet "/feed/www.youtube.com" = .notFound := by
  have h1 := C7_feed_routing "/feed/www.youtube.com/watch?v=1" (by decide)
  have h2 := C7_feed_routing "/feed/evil.example/x" (by decide)
  have h3 := C7_feed_routing "/feed/www.youtube.com" (by decide)
  refine ⟨?_, ?_, ?_⟩
  · rw [h1]; decide
  · rw [h2]; decide
  · rw [h3]; decide

/-! ## Refresh scheduling (src/tubular-9000.js lines 501-541)

The startup handler sorts the subscriptions by title (in place, line 527)
and iterates them with `forEach`, awaiting `refreshSubscription(sub)` for
each before moving to the next; the refresh-button handler (lines 538-540)
iterates the same array with the same `forEach`, likewise awaiting each
refresh. `for await (let item of array) { await fun(item, i++); }`
(forEach, lines 166-172) awaits the callback's promise to completion
before drawing the next element, so under the cooperative single-threaded
model the effects of successive callbacks concatenate in array order. -/

/-- What the scheduling claims need of a subscription: its title and the
posting ids its feed yields, in feed order. -/
structure SubModel where
  title : String
  feed : List String
  deriving Repr, DecidableEq

/-- Lexicographic comparison of JS strings (`<` and `>` compare code
units left to right): `lexLe x y` holds when `x` is not greater. -/
def lexLe : List Char → List Char → Bool
  | [], _ => true
  | _ :: _, [] => false
  | a :: as, b :: bs => if a < b then true else if b < a then false else lexLe as bs

/-- The order induced by the startup comparator (line 527):
`(sub1, sub2) => sub1.title > sub2.title ? 1 : sub1.title < sub2.title ? -1 : 0`. -/
def titleLe (a b : SubModel) : Prop :=
  lexLe a.title.toList b.title.toList = true

instance : DecidableRel titleLe := fun a b => by
  unfold titleLe; infer_instance

/-- `lexLe` is total. -/
theorem lexLe_total : ∀ x y : List Char, lexLe x y = true ∨ lexLe y x = true := by
  intro x
  induction x with
  | nil => intro y; left; rfl
  | cons a as ih =>
    intro y
    cases y with
    | nil => right; rfl
    | cons b bs =>
      by_cases hab : a < b
      · left; simp [lexLe, hab]
      · by_cases hba : b < a
        · right; simp [lexLe, hba]
        · rcases ih bs with h | h
          · left; simp [lexLe, hab, hba, h]
          · right; simp [lexLe, hba, hab, h]

/-- `lexLe` is transitive. -/
theorem lexLe_trans : ∀ x y z : List Char,
    lexLe x y = true → lexLe y z = true → lexLe x z = true := by
  intro x
  induction x with
  | nil => intro y z _ _; rfl
  | cons a as ih =>
    intro y z hxy hyz
    cases y with
    | nil => simp [lexLe] at hxy
    | cons b bs =>
      cases z with
      | nil => simp [lexLe] at hyz
      | cons c cs =>
        unfold lexLe at hxy hyz ⊢
        rcases lt_trichotomy a b with hab | hab | hab
        · rcases lt_trichotomy b c with hbc | hbc | hbc
          · simp [lt_trans hab hbc]
          · subst hbc; simp [hab]
          · simp [lt_asymm hbc, hbc] at hyz
        · subst hab
          rcases lt_trichotomy a c with hac | hac | hac
          · simp [hac]
          · subst hac
            simp only [lt_irrefl, if_false] at hxy hyz ⊢
            exact ih bs cs hxy hyz
          · simp [lt_asymm hac, hac] at hyz
        · simp [lt_asymm hab, hab] at hxy

instance : IsTotal SubModel titleLe :=
  ⟨fun a b => lexLe_total a.title.toList b.title.toList⟩

instance : IsTrans SubModel titleLe :=
  ⟨fun a b c => lexLe_trans a.title.toList b.title.toList c.title.toList⟩

/-- The in-place `subscriptions.sort(...)` of the startup path (line
527). `Array.prototype.sort` is stable; insertion sort is a stable
sorting algorithm over the same comparator, so the resulting order
coincides. -/
def sortByTitle (subs : List SubModel) : List SubModel :=
  List.insertionSort titleLe subs

/-- `forEach` (lines 166-172) over effectful callbacks, modelled by the
event logs the callbacks produce: each callback is awaited to completion
before the next element is drawn, so the logs concatenate in array
order. -/
def forEachLog {α : Type} (arr : List α) (f : α → List (String × String)) :
    List (String × String) :=
  match arr with
  | [] => []
  | x :: xs => f x ++ forEachLog xs f

/-- The posting loop of `refreshSubscription` (lines 462-465): every
posting of the fetched feed is added to the subscription's own and the
meta collection, in feed order; an event records (subscription title,
posting id) reaching the meta collection. -/
def refreshEvents (sub : SubModel) : List (String × String) :=
  sub.feed.map (fun pid => (sub.title, pid))

/-- The startup path (lines 526-535): sort by title, then refresh each
subscription in turn, awaiting each refresh fully. -/
def startupRefreshLog (subs : List SubModel) : List (String × String) :=
  forEachLog (sortByTitle subs) refreshEvents

/-- The refresh-button handler (lines 538-540):
`await forEach(subscriptions, async sub => await refreshSubscription(sub))`
— the same awaiting `forEach`, over the subscriptions array (already
title-sorted in place by the startup path). -/
def manualRefreshLog (subs : List SubModel) : List (String × String) :=
  forEachLog subs refreshEvents

/-- `forEach` concatenates the callbacks' logs in array order. -/
theorem forEachLog_eq_join {α : Type} (f : α → List (String × String)) :
    ∀ arr : List α, forEachLog arr f = (arr.map f).flatten := by
  intro arr
  induction arr with
  | nil => rfl
  | cons x xs ih => simp [forEachLog, ih]

/-- C8 counterexample: with two subscriptions of two postings each, the
manual refresh produces every posting of the first subscription before any
posting of the second — the block-sequential log, identical to the startup
path's — because the button handler awaits each `refreshSubscription`
before starting the next, with the same `forEach` as the startup path. The
claim's "fires all subscription refreshes without awaiting completion
order among them, so postings from different subscriptions may interleave
arbitrarily" is thereby false at this input. -/
theorem C8_counterexample :
    manualRefreshLog [⟨"A", ["a1", "a2"]⟩, ⟨"B", ["b1", "b2"]⟩] =
      refreshEvents ⟨"A", ["a1", "a2"]⟩ ++ refreshEvents ⟨"B", ["b1", "b2"]⟩ ∧
    manualRefreshLog [⟨"A", ["a1", "a2"]⟩, ⟨"B", ["b1", "b2"]⟩] =
      [("A", "a1"), ("A", "a2"), ("B", "b1"), ("B", "b2")] ∧
    manualRefreshLog [⟨"A", ["a1", "a2"]⟩, ⟨"B", ["b1", "b2"]⟩] =
      startupRefreshLog [⟨"A", ["a1", "a2"]⟩, ⟨"B", ["b1", "b2"]⟩] := by
  refine ⟨rfl, rfl, ?_⟩
  rfl

/-- C8 (amended): both refresh paths are sequential. The startup path
refreshes in title-sorted order, awaiting each refresh fully before the
next begins; the manual refresh affordance iterates the same (already
title-sorted) array with the same awaiting `forEach`, so its log is the
same per-subscription concatenation — one contiguous block per
subscription, in array order, with no interleaving between
subscriptions. -/
theorem C8_refresh_scheduling (subs : List SubModel) :
    startupRefreshLog subs = ((sortByTitle subs).map refreshEvents).flatten ∧
    manualRefreshLog subs = (subs.map refreshEvents).flatten ∧
    List.Pairwise titleLe (sortByTitle subs) ∧
    (sortByTitle subs).Perm subs := by
  refine ⟨forEachLog_eq_join refreshEvents (sortByTitle subs),
    forEachLog_eq_join refreshEvents subs, ?_, List.perm_insertionSort titleLe subs⟩
  exact List.sorted_insertionSort titleLe subs

/-! ## The meta entry shape (claim C9) -/

/-- The length of the per-surface elements array built by a
`MetaSubscription.addPosting` branch. -/
theorem freshElements_length (surfaces start : Nat) :
    (freshElements surfaces start).length = surfaces := by
  simp [freshElements]

/-- `MetaSubscription.addPosting` on a duplicate nested id replaces the
entry in place. -/
theorem metaAddPosting_update_eq (st : MetaState) (p : Posting) (i : Nat)
    (hid : p.id ≠ "")
    (hidx : st.postings.findIdx? (fun q => q.posting.id == p.id) = some i) :
    (metaAddPosting st p).postings =
      st.postings.set i ⟨p, freshElements st.surfaces st.nextNode⟩ := by
  unfold metaAddPosting
  rw [if_neg hid, hidx]

/-- `MetaSubscription.addPosting` leaves the registered surfaces alone. -/
theorem metaAddPosting_surfaces (st : MetaState) (p : Posting) :
    (metaAddPosting st p).surfaces = st.surfaces := by
  unfold metaAddPosting
  by_cases hid : p.id = ""
  · rw [if_pos hid]
  · rw [if_neg hid]
    cases st.postings.findIdx? (fun q => q.posting.id == p.id) with
    | some i => rfl
    | none =>
      cases st.postings.findIdx? (fun q => decide (p.published < q.posting.published)) with
      | some j => rfl
      | none => rfl

/-- C9: every branch of `MetaSubscription.addPosting` stores a record of
the posting together with one rendered-element list per registered
rendering surface — the per-surface invariant is preserved (first
conjunct) over an unchanged surface list (second conjunct) — and its
deduplication compares the *nested* posting's id (the sequence keeps its
length exactly when some entry's `posting.id` matches, third conjunct),
whereas the plain `Subscription` stores bare postings compared by their
own id (fourth conjunct). -/
theorem C9_meta_entry_shape (st : MetaState) (p : Posting) (l : List Posting)
    (hinv : ∀ e ∈ st.postings, e.elements.length = st.surfaces) (hid : p.id ≠ "") :
    (∀ e ∈ (metaAddPosting st p).postings, e.elements.length = st.surfaces) ∧
    (metaAddPosting st p).surfaces = st.surfaces ∧
    ((metaAddPosting st p).postings.length = st.postings.length ↔
      ∃ e ∈ st.postings, e.posting.id = p.id) ∧
    ((subAddPosting l p).length = l.length ↔ ∃ q ∈ l, q.id = p.id) := by
  have hsum : (st.postings.takeWhile
        (fun q => !decide (p.published < q.posting.published))).length +
      (st.postings.dropWhile
        (fun q => !decide (p.published < q.posting.published))).length =
      st.postings.length := by
    rw [← List.length_append, List.takeWhile_append_dropWhile]
  refine ⟨?_, metaAddPosting_surfaces st p, ?_, ?_⟩
  · intro e he
    cases hidx : st.postings.findIdx? (fun q => q.posting.id == p.id) with
    | some i =>
      rw [metaAddPosting_update_eq st p i hid hidx] at he
      rcases List.mem_or_eq_of_mem_set he with hmem | rfl
      · exact hinv e hmem
      · exact freshElements_length st.surfaces st.nextNode
    | none =>
      have hfresh : ∀ q ∈ st.postings, q.posting.id ≠ p.id := by
        intro q hq
        have := List.findIdx?_eq_none_iff.mp hidx q hq
        simpa using this
      rw [metaAddPosting_fresh_eq st p hid hfresh] at he
      rcases List.mem_append.mp he with hmem | hmem
      · exact hinv e ((List.takeWhile_sublist _).mem hmem)
      · rcases List.mem_cons.mp hmem with rfl | hmem
        · exact freshElements_length st.surfaces st.nextNode
        · exact hinv e ((List.dropWhile_sublist _).mem hmem)
  · cases hidx : st.postings.findIdx? (fun q => q.posting.id == p.id) with
    | some i =>
      obtain ⟨hlt, hpi⟩ := findIdx?_some_pred _ st.postings i hidx
      rw [metaAddPosting_update_eq st p i hid hidx]
      simp only [List.length_set, true_iff]
      exact ⟨st.postings[i], List.getElem_mem hlt, by simpa using hpi⟩
    | none =>
      have hfresh : ∀ q ∈ st.postings, q.posting.id ≠ p.id := by
        intro q hq
        have := List.findIdx?_eq_none_iff.mp hidx q hq
        simpa using this
      rw [metaAddPosting_fresh_eq st p hid hfresh]
      constructor
      · intro hlen
        exfalso
        rw [List.length_append, List.length_cons] at hlen
        omega
      · intro ⟨e, he, heid⟩
        exact absurd heid (hfresh e he)
  · cases hidx : l.findIdx? (fun q => q.id == p.id) with
    | some i =>
      obtain ⟨hlt, hpi⟩ := findIdx?_some_pred _ l i hidx
      have heq : subAddPosting l p = l.set i p := by
        unfold subAddPosting
        rw [if_neg hid, hidx]
      rw [heq]
      simp only [List.length_set, true_iff]
      exact ⟨l[i], List.getElem_mem hlt, by simpa using hpi⟩
    | none =>
      have hfresh : ∀ q ∈ l, q.id ≠ p.id := by
        intro q hq
        have := List.findIdx?_eq_none_iff.mp hidx q hq
        simpa using this
      rw [subAddPosting_fresh_eq l p hid hfresh]
      have hsum2 : (l.takeWhile (fun q => !decide (p.published > q.published))).length +
          (l.dropWhile (fun q => !decide (p.published > q.published))).length = l.length := by
        rw [← List.length_append, List.takeWhile_append_dropWhile]
      constructor
      · intro hlen
        exfalso
        rw [List.length_append, List.length_cons] at hlen
        omega
      · intro ⟨q, hq, hqid⟩
        exact absurd hqid (hfresh q hq)

/-- Witness for C9 at concrete inputs: adding B to a meta subscription
with two surfaces and one entry for A keeps two element lists on every
entry and grows the sequence (B's id matches no nested id), while
re-adding A to the subscription list [A] keeps the length at 1 (matched
by the entry's own id). -/
theorem C9_meta_entry_shape_witness :
    (∀ e ∈ (metaAddPosting ⟨[⟨pA, [[0], [1]]⟩], 2, 2⟩ pB).postings,
      e.elements.length = 2) ∧
    (metaAddPosting ⟨[⟨pA, [[0], [1]]⟩], 2, 2⟩ pB).surfaces = 2 ∧
    ¬ (metaAddPosting ⟨[⟨pA, [[0], [1]]⟩], 2, 2⟩ pB).postings.length = 1 ∧
    (subAddPosting [pA] pA300).length = 1 := by
  have h := C9_meta_entry_shape ⟨[⟨pA, [[0], [1]]⟩], 2, 2⟩ pB [pA]
    (by decide) (by decide)
  have h2 := C9_meta_entry_shape ⟨[], 0, 0⟩ pA300 [pA] (by simp) (by decide)
  refine ⟨h.1, h.2.1, ?_, ?_⟩
  · intro hlen
    have hex := h.2.2.1.mp hlen
    rcases hex with ⟨e, he, heid⟩
    rcases List.mem_singleton.mp he with rfl
    exact absurd heid (by decide)
  · exact h2.2.2.2.mpr ⟨pA, List.mem_singleton.mpr rfl, by decide⟩

end Tubular
